import Mathlib

/-!
Verification of the ux monorepo task runner.

This file embeds the discovery / resolution / filtering / execution pipeline
of the ux tool in Lean 4.  Strings model Go strings (forward-slash POSIX
paths, so filepath.ToSlash is the identity); Go maps are modelled as
association lists with overwriting insertion (mapInsert), which preserves
the lookup semantics of a Go map; the operating system and subprocesses are
modelled by explicit environment records (FsEnv, GitEnv, ExecEnv) recording
exactly what the code observes of them.  Wall-clock durations are not
modelled (no claim is about timing).
-/

/-! ### Go string primitives (strings.HasPrefix, TrimPrefix, Split, TrimSpace) -/

/-- strings.HasPrefix: pre is a prefix of s (bytewise; modelled on chars). -/
def goHasPrefix (s pre : String) : Bool :=
  pre.data.isPrefixOf s.data

/-- strings.HasSuffix: suf is a suffix of s. -/
def goHasSuffix (s suf : String) : Bool :=
  suf.data.isSuffixOf s.data

/-- strings.TrimPrefix: remove pre from the front of s when present. -/
def goTrimPrefix (s pre : String) : String :=
  if goHasPrefix s pre then String.mk (s.data.drop pre.data.length) else s

/-- strings.TrimSuffix: remove suf from the end of s when present. -/
def goTrimSuffix (s suf : String) : String :=
  if goHasSuffix s suf then String.mk (s.data.take (s.data.length - suf.data.length)) else s

/-- strings.TrimSpace: drop whitespace from both ends. -/
def goTrimSpace (s : String) : String :=
  String.mk (((s.data.dropWhile Char.isWhitespace).reverse.dropWhile Char.isWhitespace).reverse)

/-- Character-level splitting with the semantics of Go strings.Split(s, sep)
for a one-character separator: the empty list splits to one empty field, and
every separator occurrence starts a new field. -/
def splitChar (ch : Char) : List Char → List (List Char)
  | [] => [[]]
  | a :: t =>
    if a = ch then [] :: splitChar ch t
    else
      match splitChar ch t with
      | [] => [[a]]
      | s :: rest => (a :: s) :: rest

/-- strings.Split(s, "\n"). -/
def goSplitNewline (s : String) : List String :=
  (splitChar (Char.ofNat 10) s.data).map String.mk

/-- filepath.Join for two segments on a forward-slash filesystem. -/
def joinPath (a b : String) : String :=
  a ++ "/" ++ b

/-- filepath.Base: the last path segment. -/
def baseName (s : String) : String :=
  String.mk ((s.data.reverse.takeWhile (fun c => !(c = '/'))).reverse)

/-- filepath.Rel(root, dir) followed by filepath.ToSlash, for the case the
code exercises: dir lies below root, so the result strips the leading
"root/".  (resolvePackage ignores the error filepath.Rel would return
otherwise; outside the prefix case we return dir unchanged.) -/
def relPath (root dir : String) : String :=
  if goHasPrefix dir (root ++ "/") then
    String.mk (dir.data.drop (root ++ "/").data.length)
  else dir

/-! ### Configuration data model (config.go / part_001 of src/unnamed) -/

/-- A raw TOML task value: a single command string, a list, or some other
TOML value (which parseTasks ignores). -/
inductive TomlVal where
  | str (s : String)
  | arr (items : List TomlVal)
  | other

/-- TaskConfig: per-task policy from the root ux.toml. -/
structure TaskConfig where
  parallel : Bool := false

/-- WorkspaceConfig: the [workspace] section. -/
structure WorkspaceConfig where
  members : List String

/-- TypeDefaults: the raw [defaults.<type>.tasks] table. -/
structure TypeDefaults where
  tasks : List (String × TomlVal)

/-- RootConfig: the workspace-level ux.toml. -/
structure RootConfig where
  workspace : WorkspaceConfig
  tasks : List (String × TaskConfig)
  defaults : List (String × TypeDefaults)

/-- Package: a resolved workspace member (fields lowercased from the Go
struct Package: Name, Type, Dir, Label, Tasks, TaskSources). -/
structure Package where
  name : String
  type : String
  dir : String
  label : String
  tasks : List (String × List String)
  taskSources : List (String × String)
deriving DecidableEq

/-- The decoded per-package ux.toml: [package] name and type plus the raw
[tasks] table (zero values when a section is absent). -/
structure UxRaw where
  name : String
  type : String
  tasks : List (String × TomlVal)

/-- The filesystem as the discovery code observes it: os.Stat success,
toml.DecodeFile of a per-package ux.toml, and the sequence of directories
filepath.Walk hands to the walk callback at a given base (after the
callback's own pruning of hidden and junk directories, which the claims do
not depend on). -/
structure FsEnv where
  hasFile : String → Bool
  readUx : String → Except String UxRaw
  walk : String → List String

/-- Go map assignment m[k] = v on an association list: overwrite the
existing entry for k in place, else append. -/
def mapInsert {α : Type} (k : String) (v : α) : List (String × α) → List (String × α)
  | [] => [(k, v)]
  | (k1, v1) :: rest => if k1 = k then (k, v) :: rest else (k1, v1) :: mapInsert k v rest

/-- parseTasks value conversion: a string becomes a one-step command list, a
list keeps its string items in order, any other TOML value yields no entry. -/
def parseTaskVal : TomlVal → Option (List String)
  | .str s => some [s]
  | .arr items => some (items.filterMap fun v => match v with | .str s => some s | _ => none)
  | .other => none

/-- parseTasks: convert raw TOML task values to resolved command lists. -/
def parseTasks (raw : List (String × TomlVal)) : List (String × List String) :=
  raw.foldl (fun acc kv =>
    match parseTaskVal kv.2 with
    | some cmds => mapInsert kv.1 cmds acc
    | none => acc) []

/-- Marker files mapped to their type, checked in priority order. -/
def markerPriority : List (String × String) :=
  [("pyproject.toml", "python"), ("go.mod", "go"), ("Cargo.toml", "rust")]

/-- detectType: first matching marker file wins, else the empty type. -/
def detectType (env : FsEnv) (dir : String) : String :=
  match markerPriority.find? (fun m => env.hasFile (joinPath dir m.1)) with
  | some m => m.2
  | none => ""

/-- isPackageDir: the directory has a ux.toml or a recognized marker file. -/
def isPackageDir (env : FsEnv) (dir : String) : Bool :=
  env.hasFile (joinPath dir "ux.toml") || markerPriority.any (fun m => env.hasFile (joinPath dir m.1))

/-- resolveDefaults: pre-parse every [defaults.<type>.tasks] section. -/
def resolveDefaults (raw : List (String × TypeDefaults)) : List (String × List (String × List String)) :=
  raw.map (fun td => (td.1, parseTasks td.2.tasks))

/-- The merged task table of a package together with per-task origins. -/
structure TaskTable where
  tasks : List (String × List String)
  sources : List (String × String)
deriving DecidableEq

/-- The merge loops of resolvePackage: start from the type defaults, every
entry marked "default", then overlay the per-package overrides, overwriting
same-named entries and marking them "override". -/
def mergeTaskTables (dt ov : List (String × List String)) : TaskTable :=
  let base := dt.foldl (fun acc kv =>
    { tasks := mapInsert kv.1 kv.2 acc.tasks,
      sources := mapInsert kv.1 "default" acc.sources }) ⟨[], []⟩
  ov.foldl (fun acc kv =>
    { tasks := mapInsert kv.1 kv.2 acc.tasks,
      sources := mapInsert kv.1 "override" acc.sources }) base

/-- resolvePackage: load a package from a directory, merging type defaults
with per-package overrides.  Returns .ok none for directories that resolve
to no usable package, .error for a malformed per-package configuration. -/
def resolvePackage (env : FsEnv) (root dir : String)
    (defaults : List (String × List (String × List String))) :
    Except String (Option Package) :=
  let label := "//" ++ relPath root dir
  let uxPath := joinPath dir "ux.toml"
  let loaded : Except String (String × String × List (String × List String)) :=
    if env.hasFile uxPath then
      match env.readUx uxPath with
      | .error e => .error e
      | .ok raw => .ok (raw.name, raw.type, parseTasks raw.tasks)
    else .ok ("", "", [])
  match loaded with
  | .error e => .error e
  | .ok (name0, explicitType, overrideTasks) =>
    let name := if name0 = "" then baseName dir else name0
    let pkgType := if explicitType = "" then detectType env dir else explicitType
    if pkgType = "" ∧ overrideTasks = [] then .ok none
    else
      let dt := if pkgType = "" then [] else (defaults.lookup pkgType).getD []
      let merged := mergeTaskTables dt overrideTasks
      if merged.tasks = [] then .ok none
      else .ok (some { name := name, type := pkgType, dir := dir, label := label,
                       tasks := merged.tasks, taskSources := merged.sources })

/-- The accumulator of discoverPackages: the packages collected so far and
the set of absolute directories already visited (the Go seen map). -/
structure DiscoverState where
  packages : List Package
  seen : List String

/-- The body shared by both member kinds of discoverPackages: skip visited
directories and non-package directories, mark the directory visited, resolve
it, and append the package when one results. -/
def visitDir (env : FsEnv) (root : String)
    (defaults : List (String × List (String × List String)))
    (st : DiscoverState) (path : String) : Except String DiscoverState :=
  if st.seen.contains path then .ok st
  else if !(isPackageDir env path) then .ok st
  else
    let st1 : DiscoverState := { st with seen := path :: st.seen }
    match resolvePackage env root path defaults with
    | .error e => .error ("loading " ++ path ++ ": " ++ e)
    | .ok none => .ok st1
    | .ok (some pkg) => .ok { st1 with packages := st1.packages ++ [pkg] }

/-- One member pattern of discoverPackages: a recursive //base/... pattern
walks the base directory (skipping the workspace root and the base itself),
an exact //label pattern visits that single directory. -/
def discoverMember (env : FsEnv) (root : String)
    (defaults : List (String × List (String × List String)))
    (st : DiscoverState) (member : String) : Except String DiscoverState :=
  let label := goTrimPrefix member "//"
  if goHasSuffix label "/..." then
    let baseDir := goTrimSuffix label "/..."
    let absBase := joinPath root baseDir
    (env.walk absBase).foldlM (fun st path =>
      if path = root then .ok st
      else if path = absBase then .ok st
      else visitDir env root defaults st path) st
  else
    visitDir env root defaults st (joinPath root label)

/-- The final sort of discoverPackages: ascending by label. -/
def sortByLabel (packages : List Package) : List Package :=
  packages.mergeSort (fun a b => decide (a.label ≤ b.label))

/-- discoverPackages: resolve every workspace member into packages and
return them sorted by label. -/
def discoverPackages (env : FsEnv) (root : String) (cfg : RootConfig) :
    Except String (List Package) :=
  let defaults := resolveDefaults cfg.defaults
  match cfg.workspace.members.foldlM (discoverMember env root defaults) ⟨[], []⟩ with
  | .error e => .error e
  | .ok st => .ok (sortByLabel st.packages)

/-! ### Filter engine (filterByLabel, filterAffected) -/

/-- filterByLabel: //... matches everything, //label/... matches the label
and everything below it, anything else is an exact label match. -/
def filterByLabel (packages : List Package) (filt : String) : List Package :=
  let label := goTrimPrefix filt "//"
  if label = "..." then packages
  else if goHasSuffix label "/..." then
    let pre := goTrimSuffix label "/..."
    packages.filter (fun pkg =>
      let pkgPath := goTrimPrefix pkg.label "//"
      goHasPrefix pkgPath (pre ++ "/") || pkgPath == pre)
  else
    packages.filter (fun pkg => goTrimPrefix pkg.label "//" == label)

/-- What the change-detection code observes of git: the output of
git diff --name-only origin/main...HEAD when that command succeeds, and of
the fallback git diff --name-only origin/main when it succeeds. -/
structure GitEnv where
  diffMergeBase : Option String
  diffPlain : Option String

/-- gitDiffFiles: the merge-base diff, with one retry in the simplified form
before surfacing an error. -/
def gitDiffFiles (g : GitEnv) : Except String String :=
  match g.diffMergeBase with
  | some out => .ok out
  | none =>
    match g.diffPlain with
    | some out => .ok out
    | none => .error "git diff failed"

/-- filterAffected: keep packages containing at least one changed file; an
empty change list yields the empty set, not an error. -/
def filterAffected (g : GitEnv) (root : String) (packages : List Package) :
    Except String (List Package) :=
  match gitDiffFiles g with
  | .error e => .error e
  | .ok raw =>
    let changedFiles := goSplitNewline (goTrimSpace raw)
    if changedFiles = [""] then .ok []
    else .ok (packages.filter (fun pkg =>
      let pre := relPath root pkg.dir ++ "/"
      changedFiles.any (fun f => goHasPrefix f pre)))

/-! ### Execution scheduler (internal/ux/output.go) -/

/-- The observable behaviour of one shell command: exit success and the
contents written to each standard stream.  An ExecEnv fixes one behaviour
per executed command string (the fixed deterministic command behaviour of
the claims). -/
structure CmdBehavior where
  exitOk : Bool
  stdout : String
  stderr : String
deriving DecidableEq

/-- Deterministic command behaviour, keyed by the executed command string. -/
def ExecEnv : Type := String → CmdBehavior

/-- Result: outcome of running a task on a single package (Duration is
wall-clock time and is not modelled). -/
structure Result where
  pkg : Package
  success : Bool
  failedStep : String
  output : String
deriving DecidableEq

/-- The trailing-argument text appended to each command string: empty when
no extra arguments were given, else a space followed by the space-joined
arguments. -/
def extraSuffix (extraArgs : List String) : String :=
  if extraArgs.isEmpty then "" else " " ++ String.intercalate " " extraArgs

/-- The step loop of executeBuffered: run each command in order, appending
its stdout then its stderr to the accumulated output (appending an empty
buffer is the identity, matching the Len() > 0 guards), and stop at the
first command that exits non-zero. -/
def executeSteps (env : ExecEnv) (pkg : Package) (extra : String) :
    List String → String → Result
  | [], acc => { pkg := pkg, success := true, failedStep := "", output := acc }
  | cmdStr :: rest, acc =>
    let b := env (cmdStr ++ extra)
    let acc2 := acc ++ b.stdout ++ b.stderr
    if b.exitOk then executeSteps env pkg extra rest acc2
    else { pkg := pkg, success := false, failedStep := cmdStr ++ extra, output := acc2 }

/-- executeBuffered: run a task's command list for one package, capturing
all output into one buffer (a missing task entry is the Go map zero value,
the empty command list). -/
def executeBuffered (env : ExecEnv) (task : String) (pkg : Package)
    (extraArgs : List String) : Result :=
  executeSteps env pkg (extraSuffix extraArgs) ((pkg.tasks.lookup task).getD []) ""

/-- RunTask: execute a task across all packages.  In the Go source the
parallel branch launches one goroutine per package and the serial branch
loops in order, but both write results[i] = executeBuffered(task, pkg,
extraArgs) into the slot of package i, so under the deterministic command
model each branch is the elementwise map over the input order. -/
def runTask (env : ExecEnv) (task : String) (packages : List Package)
    (cfg : TaskConfig) (extraArgs : List String) : List Result :=
  if cfg.parallel then
    packages.map (fun pkg => executeBuffered env task pkg extraArgs)
  else
    packages.map (fun pkg => executeBuffered env task pkg extraArgs)

/-- The relevant-package filter of main: keep only packages whose task
table defines the requested task. -/
def relevantPackages (packages : List Package) (task : String) : List Package :=
  packages.filter (fun p => (p.tasks.lookup task).isSome)

/-- The exit-status logic of main: exit 0 without executing anything when
no package defines the task, else run the task and exit 1 exactly when some
result failed. -/
def runExitCode (env : ExecEnv) (task : String) (packages : List Package)
    (cfg : TaskConfig) (extraArgs : List String) : Nat :=
  let relevant := relevantPackages packages task
  if relevant.isEmpty then 0
  else
    let results := runTask env task relevant cfg extraArgs
    if results.any (fun r => !r.success) then 1 else 0

/-- The accumulated captured output of a run of command steps: per step the
stdout then the stderr of the executed command string. -/
def stepOutputs (env : ExecEnv) (extra : String) (cmds : List String) : String :=
  String.join (cmds.map (fun c => (env (c ++ extra)).stdout ++ (env (c ++ extra)).stderr))

/-- The discovery invariant: every collected package records a visited
directory below the root, carries the canonical label of that directory and
a non-empty task table, and no directory is collected twice. -/
def DiscInv (root : String) (st : DiscoverState) : Prop :=
  (∀ p ∈ st.packages,
      p.dir ∈ st.seen ∧ goHasPrefix p.dir (root ++ "/") = true ∧
      p.label = "//" ++ relPath root p.dir ∧ p.tasks ≠ []) ∧
  st.packages.Pairwise (fun a b => a.dir ≠ b.dir)

/-- The weaker discovery invariant needed for the dropped-package claim:
every collected package has a non-empty task table. -/
def TasksInv (st : DiscoverState) : Prop :=
  ∀ p ∈ st.packages, p.tasks ≠ []

/-! ### Concrete fixtures used by the witness theorems -/

/-- A command environment where only the command "false" exits non-zero. -/
def envDemo : ExecEnv := fun s =>
  if s = "true" then { exitOk := true, stdout := "T", stderr := "" }
  else if s = "false" then { exitOk := false, stdout := "F", stderr := "" }
  else { exitOk := true, stdout := "", stderr := "" }

/-- A package whose check task is the three-step list of the spec example. -/
def pkgDemo : Package :=
  { name := "demo", type := "go", dir := "/ws/demo", label := "//demo",
    tasks := [("check", ["true", "false", "true"])], taskSources := [("check", "override")] }

/-- A filesystem with one package directory /ws/m whose ux.toml declares the
python type and overrides the test task with "B". -/
def envMerge : FsEnv :=
  { hasFile := fun p => p == "/ws/m/ux.toml",
    readUx := fun p =>
      if p = "/ws/m/ux.toml" then .ok { name := "m", type := "python", tasks := [("test", .str "B")] }
      else .error "missing",
    walk := fun _ => [] }

/-- Type defaults declaring test "A" and lint "L" for python packages. -/
def defaultsMerge : List (String × List (String × List String)) :=
  [("python", [("test", ["A"]), ("lint", ["L"])])]

/-- The package that resolving /ws/m against defaultsMerge produces. -/
def mergeDemoPkg : Package :=
  { name := "m", type := "python", dir := "/ws/m", label := "//m",
    tasks := [("test", ["B"]), ("lint", ["L"])],
    taskSources := [("test", "override"), ("lint", "default")] }

/-! ### Execution lemmas -/

theorem stepOutputs_nil (env : ExecEnv) (extra : String) : stepOutputs env extra [] = "" := rfl

theorem stepOutputs_cons (env : ExecEnv) (extra c : String) (cmds : List String) :
    stepOutputs env extra (c :: cmds) =
      (env (c ++ extra)).stdout ++ (env (c ++ extra)).stderr ++ stepOutputs env extra cmds := by
  apply String.ext
  simp [stepOutputs]

theorem executeSteps_all_ok (env : ExecEnv) (pkg : Package) (extra : String) :
    ∀ (cmds : List String) (acc : String),
      (∀ c ∈ cmds, (env (c ++ extra)).exitOk = true) →
      executeSteps env pkg extra cmds acc =
        { pkg := pkg, success := true, failedStep := "", output := acc ++ stepOutputs env extra cmds }
  | [], acc, _ => by simp [executeSteps, stepOutputs_nil]
  | c :: rest, acc, h => by
    have hc : (env (c ++ extra)).exitOk = true := h c (by simp)
    have ih := executeSteps_all_ok env pkg extra rest
      (acc ++ ((env (c ++ extra)).stdout ++ (env (c ++ extra)).stderr))
      (fun d hd => h d (by simp [hd]))
    simp [executeSteps, hc, ih, stepOutputs_cons, String.append_assoc]

theorem executeSteps_first_fail (env : ExecEnv) (pkg : Package) (extra : String) :
    ∀ (pre : List String) (c : String) (rest : List String) (acc : String),
      (∀ d ∈ pre, (env (d ++ extra)).exitOk = true) →
      (env (c ++ extra)).exitOk = false →
      executeSteps env pkg extra (pre ++ c :: rest) acc =
        { pkg := pkg, success := false, failedStep := c ++ extra,
          output := acc ++ stepOutputs env extra (pre ++ [c]) }
  | [], c, rest, acc, _, hc => by
    simp [executeSteps, hc, stepOutputs_cons, stepOutputs_nil, String.append_assoc]
  | d :: pre, c, rest, acc, h, hc => by
    have hd : (env (d ++ extra)).exitOk = true := h d (by simp)
    have ih := executeSteps_first_fail env pkg extra pre c rest
      (acc ++ ((env (d ++ extra)).stdout ++ (env (d ++ extra)).stderr))
      (fun x hx => h x (by simp [hx])) hc
    simp [executeSteps, hd, ih, stepOutputs_cons, String.append_assoc]

theorem executeSteps_fields (env : ExecEnv) (pkg : Package) (extra : String) :
    ∀ (cmds : List String) (acc : String),
      (executeSteps env pkg extra cmds acc).pkg = pkg ∧
      ((executeSteps env pkg extra cmds acc).success = true →
        (executeSteps env pkg extra cmds acc).failedStep = "") ∧
      ((executeSteps env pkg extra cmds acc).success = false →
        ∃ c ∈ cmds, (executeSteps env pkg extra cmds acc).failedStep = c ++ extra ∧
          (env (c ++ extra)).exitOk = false)
  | [], acc => by simp [executeSteps]
  | c :: rest, acc => by
    by_cases hc : (env (c ++ extra)).exitOk = true
    · have ih := executeSteps_fields env pkg extra rest
        (acc ++ (env (c ++ extra)).stdout ++ (env (c ++ extra)).stderr)
      simp only [executeSteps, hc, if_true]
      exact ⟨ih.1, ih.2.1, fun hf => by
        obtain ⟨d, hd, h1, h2⟩ := ih.2.2 hf
        exact ⟨d, by simp [hd], h1, h2⟩⟩
    · have hc2 : (env (c ++ extra)).exitOk = false := by
        revert hc; cases (env (c ++ extra)).exitOk <;> simp
      refine ⟨?_, ?_, ?_⟩ <;> simp [executeSteps, hc2]

theorem executeBuffered_first_fail (env : ExecEnv) (task : String) (pkg : Package)
    (extraArgs : List String) (pre : List String) (c : String) (rest : List String)
    (hl : (pkg.tasks.lookup task).getD [] = pre ++ c :: rest)
    (hpre : ∀ d ∈ pre, (env (d ++ extraSuffix extraArgs)).exitOk = true)
    (hc : (env (c ++ extraSuffix extraArgs)).exitOk = false) :
    executeBuffered env task pkg extraArgs =
      { pkg := pkg, success := false, failedStep := c ++ extraSuffix extraArgs,
        output := stepOutputs env (extraSuffix extraArgs) (pre ++ [c]) } := by
  rw [executeBuffered, hl,
    executeSteps_first_fail env pkg (extraSuffix extraArgs) pre c rest "" hpre hc]
  simp

theorem str_append_ne_empty_left (c e : String) (hc : c ≠ "") : c ++ e ≠ "" := by
  intro h
  apply hc
  have hd := congrArg String.data h
  simp only [String.data_append] at hd
  rcases List.append_eq_nil.mp hd with ⟨h1, _⟩
  exact String.ext h1

/-- C1: for a task whose resolved command list is ["true", "false", "true"]
with the middle step exiting non-zero, per-package execution fails with
FailedStep "false" and output exactly the accumulation of the first two
steps; in general steps run in listed order and execution stops at the
first step exiting non-zero, returning the output accumulated so far. -/
theorem executeBuffered_multi_step_abort :
    (∀ (env : ExecEnv) (task : String) (pkg : Package) (extraArgs : List String)
        (pre : List String) (c : String) (rest : List String),
        (pkg.tasks.lookup task).getD [] = pre ++ c :: rest →
        (∀ d ∈ pre, (env (d ++ extraSuffix extraArgs)).exitOk = true) →
        (env (c ++ extraSuffix extraArgs)).exitOk = false →
        executeBuffered env task pkg extraArgs =
          { pkg := pkg, success := false, failedStep := c ++ extraSuffix extraArgs,
            output := stepOutputs env (extraSuffix extraArgs) (pre ++ [c]) }) ∧
    (∀ (env : ExecEnv) (task : String) (pkg : Package),
        pkg.tasks.lookup task = some ["true", "false", "true"] →
        (env "true").exitOk = true →
        (env "false").exitOk = false →
        executeBuffered env task pkg [] =
          { pkg := pkg, success := false, failedStep := "false",
            output := (env "true").stdout ++ (env "true").stderr ++
              ((env "false").stdout ++ (env "false").stderr) }) := by
  constructor
  · exact fun env task pkg extraArgs pre c rest hl hpre hc =>
      executeBuffered_first_fail env task pkg extraArgs pre c rest hl hpre hc
  · intro env task pkg hl ht hf
    have he : extraSuffix ([] : List String) = "" := rfl
    have h1 : (env ("true" ++ extraSuffix ([] : List String))).exitOk = true := by
      rw [he, String.append_empty]; exact ht
    have h2 : (env ("false" ++ extraSuffix ([] : List String))).exitOk = false := by
      rw [he, String.append_empty]; exact hf
    have hl2 : (pkg.tasks.lookup task).getD [] = ["true"] ++ "false" :: ["true"] := by
      rw [hl]; rfl
    have hpre : ∀ d ∈ ["true"], (env (d ++ extraSuffix ([] : List String))).exitOk = true := by
      intro d hd
      rw [List.mem_singleton.mp hd]
      exact h1
    have hmain := executeBuffered_first_fail env task pkg [] ["true"] "false" ["true"] hl2 hpre h2
    rw [hmain]
    rw [he]
    simp [stepOutputs_cons, stepOutputs_nil, String.append_assoc]

/-- C1 witness: a concrete environment and package realizing the example. -/
theorem executeBuffered_multi_step_abort_witness :
    pkgDemo.tasks.lookup "check" = some ["true", "false", "true"] ∧
    (envDemo "true").exitOk = true ∧ (envDemo "false").exitOk = false ∧
    executeBuffered envDemo "check" pkgDemo [] =
      { pkg := pkgDemo, success := false, failedStep := "false", output := "TF" } := by
  refine ⟨rfl, rfl, rfl, ?_⟩
  have h := executeBuffered_multi_step_abort.2 envDemo "check" pkgDemo rfl rfl rfl
  rw [h]
  decide

/-- C10: a package whose task table has no entry for the task, or whose
entry is the empty command list, runs zero steps and reports success with
empty output and empty FailedStep. -/
theorem executeBuffered_vacuous_success :
    ∀ (env : ExecEnv) (task : String) (pkg : Package) (extraArgs : List String),
      pkg.tasks.lookup task = none ∨ pkg.tasks.lookup task = some [] →
      executeBuffered env task pkg extraArgs =
        { pkg := pkg, success := true, failedStep := "", output := "" } := by
  intro env task pkg extraArgs h
  rcases h with h | h <;> simp [executeBuffered, h, executeSteps]

/-- C10 witness: a task name the demo package does not define. -/
theorem executeBuffered_vacuous_success_witness :
    pkgDemo.tasks.lookup "deploy" = none ∧
    executeBuffered envDemo "deploy" pkgDemo [] =
      { pkg := pkgDemo, success := true, failedStep := "", output := "" } :=
  ⟨rfl, executeBuffered_vacuous_success envDemo "deploy" pkgDemo [] (Or.inl rfl)⟩

/-- C8: under a fixed deterministic command behaviour the parallel and the
serial policy return identical result lists, and under either policy the
returned collection is the elementwise execution of the input package list
in input order. -/
theorem runTask_parallel_serial_agree :
    ∀ (env : ExecEnv) (task : String) (packages : List Package) (extraArgs : List String),
      runTask env task packages { parallel := true } extraArgs =
        runTask env task packages { parallel := false } extraArgs ∧
      ∀ (cfg : TaskConfig),
        runTask env task packages cfg extraArgs =
          packages.map (fun pkg => executeBuffered env task pkg extraArgs) ∧
        (runTask env task packages cfg extraArgs).map Result.pkg = packages := by
  intro env task packages extraArgs
  have hpkg : ∀ (pkg : Package), (executeBuffered env task pkg extraArgs).pkg = pkg := by
    intro pkg
    exact (executeSteps_fields env pkg (extraSuffix extraArgs)
      ((pkg.tasks.lookup task).getD []) "").1
  have hmap : ∀ (ps : List Package),
      (ps.map (fun pkg => executeBuffered env task pkg extraArgs)).map Result.pkg = ps := by
    intro ps
    induction ps with
    | nil => rfl
    | cons p ps ih => simp [hpkg, ih]
  constructor
  · simp [runTask]
  · intro cfg
    constructor
    · cases h : cfg.parallel <;> simp [runTask, h]
    · cases h : cfg.parallel <;> simp only [runTask, h, Bool.false_eq_true, if_false, if_true, hmap]

/-- C2: the process exit status is 1 exactly when some execution result
failed, 0 exactly when every result succeeded, and in particular 0 without
executing anything when no package defines the task. -/
theorem runExitCode_one_iff_failure :
    ∀ (env : ExecEnv) (task : String) (packages : List Package) (cfg : TaskConfig)
      (extraArgs : List String),
      (runExitCode env task packages cfg extraArgs = 1 ↔
        ∃ r ∈ runTask env task (relevantPackages packages task) cfg extraArgs,
          r.success = false) ∧
      (runExitCode env task packages cfg extraArgs = 0 ↔
        ∀ r ∈ runTask env task (relevantPackages packages task) cfg extraArgs,
          r.success = true) ∧
      (relevantPackages packages task = [] →
        runExitCode env task packages cfg extraArgs = 0) := by
  intro env task packages cfg extraArgs
  by_cases hrel : (relevantPackages packages task).isEmpty
  · have hnil : relevantPackages packages task = [] := by
      simpa using hrel
    have hrt : runTask env task (relevantPackages packages task) cfg extraArgs = [] := by
      rw [hnil]; cases h : cfg.parallel <;> simp [runTask, h]
    have h0 : runExitCode env task packages cfg extraArgs = 0 := by
      simp [runExitCode, hrel]
    refine ⟨?_, ?_, fun _ => h0⟩
    · simp [h0, hrt]
    · simp [h0, hrt]
  · have hne : relevantPackages packages task ≠ [] := by
      intro hn; exact hrel (by simp [hn])
    have hres : runExitCode env task packages cfg extraArgs =
        (if (runTask env task (relevantPackages packages task) cfg extraArgs).any
            (fun r => !r.success) then 1 else 0) := by
      simp [runExitCode, hrel]
    by_cases hany : (runTask env task (relevantPackages packages task) cfg extraArgs).any
        (fun r => !r.success)
    · rw [hres, if_pos hany]
      have hex : ∃ r ∈ runTask env task (relevantPackages packages task) cfg extraArgs,
          r.success = false := by
        simpa using List.any_eq_true.mp hany
      refine ⟨by simp [hex], ?_, fun hn => absurd hn hne⟩
      constructor
      · intro h; exact absurd h one_ne_zero
      · intro hall
        obtain ⟨r, hr, hf⟩ := hex
        exact absurd (hall r hr) (by simp [hf])
    · rw [hres, if_neg hany]
      have hall : ∀ r ∈ runTask env task (relevantPackages packages task) cfg extraArgs,
          r.success = true := by
        intro r hr
        by_contra hf
        exact hany (List.any_eq_true.mpr ⟨r, hr, by simp [Bool.not_eq_true] at hf; simp [hf]⟩)
      refine ⟨?_, ⟨fun _ => hall, fun _ => rfl⟩, fun hn => absurd hn hne⟩
      constructor
      · intro h; exact absurd h (by simp)
      · intro ⟨r, hr, hf⟩
        exact absurd (hall r hr) (by simp [hf])

/-- C2 witness: an empty workspace exits 0, and a workspace whose only
relevant package fails exits 1. -/
theorem runExitCode_one_iff_failure_witness :
    relevantPackages [] "check" = [] ∧
    runExitCode envDemo "check" [] { parallel := false } [] = 0 ∧
    runExitCode envDemo "check" [pkgDemo] { parallel := false } [] = 1 := by
  refine ⟨rfl, (runExitCode_one_iff_failure envDemo "check" [] ⟨false⟩ []).2.2 rfl, ?_⟩
  apply (runExitCode_one_iff_failure envDemo "check" [pkgDemo] ⟨false⟩ []).1.mpr
  refine ⟨executeBuffered envDemo "check" pkgDemo [], by decide, by decide⟩

/-- C9: in every result of per-package execution over non-empty command
strings, FailedStep is non-empty exactly when the run failed; on failure it
is the executed command string of the step that failed. -/
theorem result_failedStep_iff_failure :
    ∀ (env : ExecEnv) (task : String) (pkg : Package) (extraArgs : List String),
      (∀ c ∈ (pkg.tasks.lookup task).getD [], c ≠ "") →
      ((executeBuffered env task pkg extraArgs).success = false ↔
        (executeBuffered env task pkg extraArgs).failedStep ≠ "") ∧
      ((executeBuffered env task pkg extraArgs).success = false →
        ∃ c ∈ (pkg.tasks.lookup task).getD [],
          (executeBuffered env task pkg extraArgs).failedStep = c ++ extraSuffix extraArgs ∧
          (env (c ++ extraSuffix extraArgs)).exitOk = false) := by
  intro env task pkg extraArgs hne
  have hf := executeSteps_fields env pkg (extraSuffix extraArgs)
    ((pkg.tasks.lookup task).getD []) ""
  have hfail : (executeBuffered env task pkg extraArgs).success = false →
      ∃ c ∈ (pkg.tasks.lookup task).getD [],
        (executeBuffered env task pkg extraArgs).failedStep = c ++ extraSuffix extraArgs ∧
        (env (c ++ extraSuffix extraArgs)).exitOk = false := hf.2.2
  refine ⟨⟨fun h => ?_, fun h => ?_⟩, hfail⟩
  · obtain ⟨c, hc, heq, _⟩ := hfail h
    rw [heq]
    exact str_append_ne_empty_left c (extraSuffix extraArgs) (hne c hc)
  · by_contra hs
    rw [Bool.not_eq_false] at hs
    exact h (hf.2.1 hs)

/-- C9 witness: the demo package's failing check run has a non-empty
FailedStep. -/
theorem result_failedStep_iff_failure_witness :
    (∀ c ∈ (pkgDemo.tasks.lookup "check").getD [], c ≠ "") ∧
    ((executeBuffered envDemo "check" pkgDemo []).success = false ↔
      (executeBuffered envDemo "check" pkgDemo []).failedStep ≠ "") :=
  ⟨by decide, (result_failedStep_iff_failure envDemo "check" pkgDemo [] (by decide)).1⟩

/-- A package fixture carrying only a label (for filter examples). -/
def pkgOfLabel (l : String) : Package :=
  { name := "p", type := "", dir := "", label := l,
    tasks := [("t", ["c"])], taskSources := [] }

/-- Git reporting one changed file under a/b and one at the root. -/
def gitDemo : GitEnv :=
  { diffMergeBase := some "a/b/file.txt\nother.txt", diffPlain := none }

/-- A package rooted at /ws/a/b. -/
def pkgAff : Package :=
  { name := "b", type := "go", dir := "/ws/a/b", label := "//a/b",
    tasks := [("t", ["c"])], taskSources := [] }

/-- A sibling package /ws/a/bc whose directory name extends a/b. -/
def pkgSib : Package :=
  { name := "bc", type := "go", dir := "/ws/a/bc", label := "//a/bc",
    tasks := [("t", ["c"])], taskSources := [] }

/-- The walk of the demo workspace: /ws/pk contains directories b and a
(visited in that order, exercising the final sort). -/
def walkDemo : String → List String := fun base =>
  if base = "/ws/pk" then ["/ws/pk", "/ws/pk/b", "/ws/pk/a"] else []

/-- A demo filesystem: two go packages under /ws/pk, no per-package
ux.toml anywhere. -/
def envDisc : FsEnv :=
  { hasFile := fun p => p == "/ws/pk/a/go.mod" || p == "/ws/pk/b/go.mod",
    readUx := fun _ => .error "missing",
    walk := walkDemo }

/-- A demo root configuration with one recursive member and one go default
task. -/
def cfgDisc : RootConfig :=
  { workspace := { members := ["//pk/..."] },
    tasks := [],
    defaults := [("go", { tasks := [("build", .str "go build ./...")] })] }

/-- The first discovered demo package (label //pk/a). -/
def pkgDiscA : Package :=
  { name := "a", type := "go", dir := "/ws/pk/a", label := "//pk/a",
    tasks := [("build", ["go build ./..."])], taskSources := [("build", "default")] }

/-- The second discovered demo package (label //pk/b). -/
def pkgDiscB : Package :=
  { name := "b", type := "go", dir := "/ws/pk/b", label := "//pk/b",
    tasks := [("build", ["go build ./..."])], taskSources := [("build", "default")] }

/-- The discovery result of the demo workspace, sorted by label. -/
def pkgsDisc : List Package := [pkgDiscA, pkgDiscB]

/-- A filesystem with no files at all (for the typeless-directory case). -/
def envBare : FsEnv :=
  { hasFile := fun _ => false, readUx := fun _ => .error "missing", walk := fun _ => [] }

/-- A filesystem where /ws/d has only a go.mod marker: the directory gets
the go type but, with no defaults for go and no ux.toml, an empty merged
task table. -/
def envMarkerOnly : FsEnv :=
  { hasFile := fun p => p == "/ws/d/go.mod", readUx := fun _ => .error "missing",
    walk := fun _ => [] }

/-! ### Association-list map lemmas -/

theorem lookup_mapInsert {α : Type} (k : String) (v : α) :
    ∀ (m : List (String × α)) (k2 : String),
      (mapInsert k v m).lookup k2 = if k2 = k then some v else m.lookup k2
  | [], k2 => by
    by_cases h : k2 = k
    · simp [mapInsert, List.lookup, h]
    · have hb : (k2 == k) = false := beq_eq_false_iff_ne.mpr h
      simp [mapInsert, List.lookup, h, hb]
  | (k1, v1) :: rest, k2 => by
    by_cases h1 : k1 = k
    · subst h1
      by_cases h2 : k2 = k1
      · simp [mapInsert, List.lookup, h2]
      · have hb : (k2 == k1) = false := beq_eq_false_iff_ne.mpr h2
        simp [mapInsert, List.lookup, h2, hb]
    · have ih := lookup_mapInsert k v rest k2
      by_cases h2 : k2 = k1
      · have h3 : ¬ k2 = k := fun hh => h1 (h2 ▸ hh)
        have hb : (k2 == k1) = true := beq_iff_eq.mpr h2
        simp [mapInsert, List.lookup, h1, h3, hb]
      · have hb : (k2 == k1) = false := beq_eq_false_iff_ne.mpr h2
        simp [mapInsert, List.lookup, h1, hb, ih]

theorem lookup_none_of_not_mem_keys {α : Type} :
    ∀ (l : List (String × α)) (k : String), k ∉ l.map Prod.fst → l.lookup k = none
  | [], _, _ => rfl
  | (k1, v1) :: rest, k, h => by
    simp only [List.map_cons, List.mem_cons, not_or] at h
    have hb : (k == k1) = false := beq_eq_false_iff_ne.mpr h.1
    simp [List.lookup, hb, lookup_none_of_not_mem_keys rest k h.2]

theorem lookup_cons_self {α : Type} (k : String) (v : α) (rest : List (String × α)) :
    List.lookup k ((k, v) :: rest) = some v := by
  simp [List.lookup]

theorem lookup_cons_ne {α : Type} (k k1 : String) (v : α) (rest : List (String × α))
    (h : ¬ k = k1) : List.lookup k ((k1, v) :: rest) = List.lookup k rest := by
  have hb : (k == k1) = false := beq_eq_false_iff_ne.mpr h
  simp [List.lookup, hb]

theorem lookup_foldl_insert {α : Type} :
    ∀ (l : List (String × α)) (acc : List (String × α)) (k : String),
      (l.map Prod.fst).Nodup →
      (l.foldl (fun a kv => mapInsert kv.1 kv.2 a) acc).lookup k =
        (l.lookup k).or (acc.lookup k)
  | [], acc, k, _ => by simp [List.lookup]
  | (k1, v1) :: rest, acc, k, h => by
    have hk1 : k1 ∉ rest.map Prod.fst := (List.nodup_cons.mp h).1
    have ih := lookup_foldl_insert rest (mapInsert k1 v1 acc) k (List.nodup_cons.mp h).2
    simp only [List.foldl_cons]
    rw [ih, lookup_mapInsert]
    by_cases hk : k = k1
    · subst hk
      rw [lookup_none_of_not_mem_keys rest k hk1, lookup_cons_self]
      simp
    · rw [lookup_cons_ne k k1 v1 rest hk]
      simp [hk]

theorem lookup_foldl_insert_const {α β : Type} (c : β) :
    ∀ (l : List (String × α)) (acc : List (String × β)) (k : String),
      (l.map Prod.fst).Nodup →
      (l.foldl (fun a kv => mapInsert kv.1 c a) acc).lookup k =
        (if (l.lookup k).isSome then some c else acc.lookup k)
  | [], acc, k, _ => by simp [List.lookup]
  | (k1, v1) :: rest, acc, k, h => by
    have hk1 : k1 ∉ rest.map Prod.fst := (List.nodup_cons.mp h).1
    have ih := lookup_foldl_insert_const c rest (mapInsert k1 c acc) k (List.nodup_cons.mp h).2
    simp only [List.foldl_cons]
    rw [ih, lookup_mapInsert]
    by_cases hk : k = k1
    · subst hk
      rw [lookup_none_of_not_mem_keys rest k hk1, lookup_cons_self]
      simp
    · rw [lookup_cons_ne k k1 v1 rest hk]
      simp [hk]

theorem taskTable_foldl_split (src : String) :
    ∀ (l : List (String × List String)) (t0 : List (String × List String))
      (s0 : List (String × String)),
      l.foldl (fun acc kv =>
          ({ tasks := mapInsert kv.1 kv.2 acc.tasks,
             sources := mapInsert kv.1 src acc.sources } : TaskTable)) ⟨t0, s0⟩ =
        ⟨l.foldl (fun a kv => mapInsert kv.1 kv.2 a) t0,
         l.foldl (fun a kv => mapInsert kv.1 src a) s0⟩
  | [], t0, s0 => rfl
  | kv :: rest, t0, s0 => by
    simp only [List.foldl_cons]
    exact taskTable_foldl_split src rest _ _

theorem mergeTaskTables_eq (dt ov : List (String × List String)) :
    mergeTaskTables dt ov =
      ⟨ov.foldl (fun a kv => mapInsert kv.1 kv.2 a)
          (dt.foldl (fun a kv => mapInsert kv.1 kv.2 a) []),
       ov.foldl (fun a kv => mapInsert kv.1 "override" a)
          (dt.foldl (fun a kv => mapInsert kv.1 "default" a) [])⟩ := by
  rw [mergeTaskTables]
  rw [taskTable_foldl_split "default" dt [] []]
  exact taskTable_foldl_split "override" ov _ _

/-- C3: the resolved task table starts from the type defaults, every entry
marked "default", then overlays the per-package overrides, overwriting
same-named defaults and marking them "override"; in particular defaults
{test: "A", lint: "L"} with override {test: "B"} resolve to
{test: "B" (override), lint: "L" (default)}. -/
theorem mergeTaskTables_precedence :
    (∀ (dt ov : List (String × List String)) (k : String),
        (dt.map Prod.fst).Nodup → (ov.map Prod.fst).Nodup →
        (mergeTaskTables dt ov).tasks.lookup k = (ov.lookup k).or (dt.lookup k) ∧
        (mergeTaskTables dt ov).sources.lookup k =
          (if (ov.lookup k).isSome then some "override"
           else if (dt.lookup k).isSome then some "default" else none)) ∧
    resolvePackage envMerge "/ws" "/ws/m" defaultsMerge = .ok (some mergeDemoPkg) ∧
    mergeDemoPkg.tasks.lookup "test" = some ["B"] ∧
    mergeDemoPkg.taskSources.lookup "test" = some "override" ∧
    mergeDemoPkg.tasks.lookup "lint" = some ["L"] ∧
    mergeDemoPkg.taskSources.lookup "lint" = some "default" := by
  refine ⟨?_, rfl, by decide, by decide, by decide, by decide⟩
  intro dt ov k hdt hov
  rw [mergeTaskTables_eq]
  constructor
  · rw [lookup_foldl_insert ov _ k hov, lookup_foldl_insert dt [] k hdt]
    simp [List.lookup]
  · rw [lookup_foldl_insert_const "override" ov _ k hov,
      lookup_foldl_insert_const "default" dt [] k hdt]
    simp [List.lookup]

/-- C3 witness: the merge lemma applied to the spec's concrete tables. -/
theorem mergeTaskTables_precedence_witness :
    (mergeTaskTables [("test", ["A"]), ("lint", ["L"])] [("test", ["B"])]).tasks.lookup "test" =
      ([(("test" : String), ["B"])].lookup "test").or
        ([(("test" : String), ["A"]), ("lint", ["L"])].lookup "test") :=
  (mergeTaskTables_precedence.1 [("test", ["A"]), ("lint", ["L"])] [("test", ["B"])] "test"
    (by decide) (by decide)).1

/-! ### String lemmas for the filter engine -/

theorem goHasPrefix_append (x y : String) : goHasPrefix (x ++ y) x = true := by
  simp [goHasPrefix]

theorem goHasPrefix_exists {s pre : String} (h : goHasPrefix s pre = true) :
    ∃ t, s = pre ++ t := by
  rw [goHasPrefix, List.isPrefixOf_iff_prefix] at h
  obtain ⟨t, ht⟩ := h
  refine ⟨String.mk t, String.ext ?_⟩
  rw [String.data_append]
  exact ht.symm

theorem goTrimPrefix_append (x y : String) : goTrimPrefix (x ++ y) x = y := by
  rw [goTrimPrefix, if_pos (goHasPrefix_append x y)]
  apply String.ext
  show ((x ++ y).data).drop x.data.length = y.data
  rw [String.data_append]
  exact List.drop_left x.data y.data

theorem goHasSuffix_append (a suf : String) : goHasSuffix (a ++ suf) suf = true := by
  simp [goHasSuffix]

theorem goTrimSuffix_append (a suf : String) : goTrimSuffix (a ++ suf) suf = a := by
  rw [goTrimSuffix, if_pos (goHasSuffix_append a suf)]
  apply String.ext
  show ((a ++ suf).data).take ((a ++ suf).data.length - suf.data.length) = a.data
  rw [String.data_append, List.length_append]
  have hlen : a.data.length + suf.data.length - suf.data.length = a.data.length := by omega
  rw [hlen]
  exact List.take_left a.data suf.data

theorem goHasPrefix_append_right (x r q : String) :
    goHasPrefix (x ++ r) (x ++ q) = goHasPrefix r q := by
  rw [Bool.eq_iff_iff]
  simp [goHasPrefix]

theorem str_append_right_beq (x s t : String) : (x ++ s == x ++ t) = (s == t) := by
  rw [Bool.eq_iff_iff]
  simp only [beq_iff_eq]
  constructor
  · intro h
    apply String.ext
    have hd := congrArg String.data h
    simp only [String.data_append] at hd
    exact List.append_cancel_left hd
  · intro h; rw [h]

theorem append_slashdots_ne_dots (a : String) : ¬ (a ++ "/..." = "...") := by
  intro h
  have hd := congrArg (fun s => s.data.length) h
  simp only [String.data_append, List.length_append] at hd
  have h1 : ("/..." : String).data.length = 4 := rfl
  have h2 : ("..." : String).data.length = 3 := rfl
  rw [h1, h2] at hd
  omega

/-- C5: the recursive filter //a/... keeps exactly the packages whose label
equals //a or starts with //a/, the exact filter //a keeps exactly the
packages whose label equals //a, and the kept packages stay in their
original relative order (each result is a List.filter of the input);
concretely //a/... keeps //a, //a/b, //a/b/c and drops //ab and //x. -/
theorem filterByLabel_spec :
    (∀ (packages : List Package) (a : String),
        (∀ p ∈ packages, goHasPrefix p.label "//" = true) →
        filterByLabel packages ("//" ++ a ++ "/...") =
          packages.filter (fun p => p.label == "//" ++ a ||
            goHasPrefix p.label ("//" ++ a ++ "/"))) ∧
    (∀ (packages : List Package) (a : String),
        (∀ p ∈ packages, goHasPrefix p.label "//" = true) →
        goHasSuffix a "/..." = false → a ≠ "..." →
        filterByLabel packages ("//" ++ a) =
          packages.filter (fun p => p.label == "//" ++ a)) ∧
    filterByLabel [pkgOfLabel "//a", pkgOfLabel "//a/b", pkgOfLabel "//a/b/c",
        pkgOfLabel "//ab", pkgOfLabel "//x"] "//a/..." =
      [pkgOfLabel "//a", pkgOfLabel "//a/b", pkgOfLabel "//a/b/c"] := by
  refine ⟨?_, ?_, by decide⟩
  · intro packages a h
    simp only [filterByLabel]
    rw [String.append_assoc "//" a "/..."]
    rw [goTrimPrefix_append "//" (a ++ "/...")]
    rw [if_neg (append_slashdots_ne_dots a)]
    rw [if_pos (goHasSuffix_append a "/...")]
    rw [goTrimSuffix_append a "/..."]
    apply List.filter_congr
    intro p hp
    obtain ⟨r, hr⟩ := goHasPrefix_exists (h p hp)
    rw [hr, goTrimPrefix_append]
    rw [str_append_right_beq "//" r a]
    rw [String.append_assoc "//" a "/"]
    rw [goHasPrefix_append_right "//" r (a ++ "/")]
    exact Bool.or_comm _ _
  · intro packages a h hsuf hdots
    simp only [filterByLabel]
    rw [goTrimPrefix_append "//" a]
    rw [if_neg hdots]
    rw [if_neg (by simp [hsuf])]
    apply List.filter_congr
    intro p hp
    obtain ⟨r, hr⟩ := goHasPrefix_exists (h p hp)
    rw [hr, goTrimPrefix_append, str_append_right_beq "//" r a]

/-- C5 witness: the recursive-filter characterization applied to the five
concrete labels of the example. -/
theorem filterByLabel_spec_witness :
    filterByLabel [pkgOfLabel "//a", pkgOfLabel "//a/b", pkgOfLabel "//a/b/c",
        pkgOfLabel "//ab", pkgOfLabel "//x"] ("//" ++ "a" ++ "/...") =
      [pkgOfLabel "//a", pkgOfLabel "//a/b", pkgOfLabel "//a/b/c",
        pkgOfLabel "//ab", pkgOfLabel "//x"].filter
        (fun p => p.label == "//" ++ "a" || goHasPrefix p.label ("//" ++ "a" ++ "/")) :=
  filterByLabel_spec.1 [pkgOfLabel "//a", pkgOfLabel "//a/b", pkgOfLabel "//a/b/c",
    pkgOfLabel "//ab", pkgOfLabel "//x"] "a" (by decide)

/-! ### Change-detection filter lemmas -/

theorem splitChar_ne_nil (ch : Char) : ∀ (l : List Char), splitChar ch l ≠ []
  | [] => by simp [splitChar]
  | a :: t => by
    by_cases h : a = ch
    · simp [splitChar, h]
    · cases hs : splitChar ch t with
      | nil => simp [splitChar, h, hs]
      | cons s rest => simp [splitChar, h, hs]

theorem splitChar_eq_singleton_empty (ch : Char) :
    ∀ (l : List Char), splitChar ch l = [[]] ↔ l = []
  | [] => by simp [splitChar]
  | a :: t => by
    constructor
    · intro h
      by_cases ha : a = ch
      · rw [splitChar, if_pos ha] at h
        have h2 : splitChar ch t = [] := (List.cons.injEq _ _ _ _ ▸ h).2
        exact absurd h2 (splitChar_ne_nil ch t)
      · rw [splitChar, if_neg ha] at h
        cases hs : splitChar ch t with
        | nil => exact absurd hs (splitChar_ne_nil ch t)
        | cons s rest =>
          rw [hs] at h
          have := (List.cons.injEq _ _ _ _ ▸ h).1
          exact absurd this (by simp)
    · intro h
      exact absurd h (by simp)

theorem goSplitNewline_eq_singleton_empty (s : String) :
    goSplitNewline s = [""] ↔ s = "" := by
  constructor
  · intro h
    rw [goSplitNewline] at h
    cases hs : splitChar (Char.ofNat 10) s.data with
    | nil => exact absurd hs (splitChar_ne_nil _ _)
    | cons l rest =>
      rw [hs] at h
      simp only [List.map_cons, List.cons.injEq, List.map_eq_nil_iff] at h
      have hl : l = [] := congrArg String.data h.1
      have hrest : rest = [] := h.2
      have hsing : splitChar (Char.ofNat 10) s.data = [[]] := by rw [hs, hl, hrest]
      exact String.ext ((splitChar_eq_singleton_empty _ s.data).mp hsing)
  · intro h
    rw [h]
    rfl

/-- C7: change-detection keeps a package exactly when some changed file
path starts with the package's root-relative directory plus a trailing
slash (so a sibling directory whose name merely extends it never matches),
preserving order, and an empty change list yields the empty set, not an
error. -/
theorem filterAffected_spec :
    (∀ (g : GitEnv) (root : String) (packages : List Package) (raw : String),
        gitDiffFiles g = .ok raw →
        (goTrimSpace raw = "" → filterAffected g root packages = .ok []) ∧
        (goTrimSpace raw ≠ "" →
          filterAffected g root packages = .ok (packages.filter (fun pkg =>
            (goSplitNewline (goTrimSpace raw)).any
              (fun f => goHasPrefix f (relPath root pkg.dir ++ "/")))))) ∧
    goHasPrefix "a/bc/file.txt" ("a/b" ++ "/") = false ∧
    goHasPrefix "a/b/file.txt" ("a/b" ++ "/") = true := by
  refine ⟨?_, by decide, by decide⟩
  intro g root packages raw hg
  constructor
  · intro h
    have hsplit : goSplitNewline "" = [""] := rfl
    simp [filterAffected, hg, h, hsplit]
  · intro h
    have hne : ¬ goSplitNewline (goTrimSpace raw) = [""] :=
      fun hh => h ((goSplitNewline_eq_singleton_empty _).mp hh)
    simp only [filterAffected, hg]
    rw [if_neg hne]

/-- C7 witness: the concrete git diff keeps /ws/a/b and drops the sibling
/ws/a/bc. -/
theorem filterAffected_spec_witness :
    gitDiffFiles gitDemo = .ok "a/b/file.txt\nother.txt" ∧
    filterAffected gitDemo "/ws" [pkgAff, pkgSib] =
      .ok ([pkgAff, pkgSib].filter (fun pkg =>
        (goSplitNewline (goTrimSpace "a/b/file.txt\nother.txt")).any
          (fun f => goHasPrefix f (relPath "/ws" pkg.dir ++ "/")))) := by
  refine ⟨rfl, ?_⟩
  exact ((filterAffected_spec.1 gitDemo "/ws" [pkgAff, pkgSib]
    "a/b/file.txt\nother.txt" rfl).2 (by decide))

/-! ### Discovery lemmas -/

theorem exceptBind_ok {α β : Type} (x : α) (g : α → Except String β) :
    (Except.ok x >>= g) = g x := rfl

theorem exceptBind_error {α β : Type} (e : String) (g : α → Except String β) :
    ((Except.error e : Except String α) >>= g) = Except.error e := rfl

theorem foldlM_except_inv {σ α : Type} {f : σ → α → Except String σ} {P : σ → Prop} :
    ∀ (l : List α) (s0 s1 : σ),
      (∀ s a s2, a ∈ l → P s → f s a = .ok s2 → P s2) →
      P s0 → l.foldlM f s0 = .ok s1 → P s1
  | [], s0, s1, _, h0, hf => by
    rw [List.foldlM_nil] at hf
    exact Except.ok.inj hf ▸ h0
  | a :: l, s0, s1, hstep, h0, hf => by
    rw [List.foldlM_cons] at hf
    cases hfa : f s0 a with
    | error e =>
      rw [hfa, exceptBind_error] at hf
      exact Except.noConfusion hf
    | ok s' =>
      rw [hfa, exceptBind_ok] at hf
      exact foldlM_except_inv l s' s1
        (fun s b s2 hb => hstep s b s2 (List.mem_cons_of_mem a hb))
        (hstep s0 a s' (List.mem_cons_self a l) h0 hfa) hf

theorem resolvePackage_ok_some {env : FsEnv} {root dir : String}
    {defaults : List (String × List (String × List String))} {p : Package}
    (h : resolvePackage env root dir defaults = .ok (some p)) :
    p.dir = dir ∧ p.label = "//" ++ relPath root dir ∧ p.tasks ≠ [] := by
  simp only [resolvePackage] at h
  repeat' split at h
  all_goals first
    | exact Except.noConfusion h
    | (injection h with h1; exact Option.noConfusion h1)
    | (injection h with h1; injection h1 with h2; subst h2; exact ⟨rfl, rfl, by simp_all⟩)

theorem visitDir_inv {env : FsEnv} {root : String}
    {defaults : List (String × List (String × List String))}
    {st st2 : DiscoverState} {path : String}
    (hpre : goHasPrefix path (root ++ "/") = true)
    (hinv : DiscInv root st)
    (h : visitDir env root defaults st path = .ok st2) :
    DiscInv root st2 := by
  simp only [visitDir] at h
  split at h
  · injection h with h1; subst h1; exact hinv
  · rename_i hseen
    split at h
    · injection h with h1; subst h1; exact hinv
    · cases hres : resolvePackage env root path defaults with
      | error e => rw [hres] at h; exact Except.noConfusion h
      | ok o =>
        rw [hres] at h
        cases o with
        | none =>
          injection h with h1
          subst h1
          refine ⟨?_, hinv.2⟩
          intro p hp
          obtain ⟨k1, k2, k3, k4⟩ := hinv.1 p hp
          exact ⟨List.mem_cons_of_mem _ k1, k2, k3, k4⟩
        | some pkg =>
          injection h with h1
          subst h1
          obtain ⟨hdir, hlab, htasks⟩ := resolvePackage_ok_some hres
          have hnotseen : path ∉ st.seen := by
            intro hmem
            exact hseen (List.elem_eq_true_of_mem hmem)
          constructor
          · intro p hp
            rcases List.mem_append.mp hp with hp | hp
            · obtain ⟨k1, k2, k3, k4⟩ := hinv.1 p hp
              exact ⟨List.mem_cons_of_mem _ k1, k2, k3, k4⟩
            · have hp2 : p = pkg := by simpa using hp
              subst hp2
              refine ⟨?_, ?_, ?_, htasks⟩
              · rw [hdir]; exact List.mem_cons_self _ _
              · rw [hdir]; exact hpre
              · rw [hdir]; exact hlab
          · apply List.pairwise_append.mpr
            refine ⟨hinv.2, List.pairwise_singleton _ _, ?_⟩
            intro a ha b hb
            have hb2 : b = pkg := by simpa using hb
            subst hb2
            rw [hdir]
            intro hEq
            exact hnotseen (hEq ▸ (hinv.1 a ha).1)

theorem visitDir_tasks {env : FsEnv} {root : String}
    {defaults : List (String × List (String × List String))}
    {st st2 : DiscoverState} {path : String}
    (hinv : TasksInv st)
    (h : visitDir env root defaults st path = .ok st2) :
    TasksInv st2 := by
  simp only [visitDir] at h
  split at h
  · injection h with h1; subst h1; exact hinv
  · split at h
    · injection h with h1; subst h1; exact hinv
    · cases hres : resolvePackage env root path defaults with
      | error e => rw [hres] at h; exact Except.noConfusion h
      | ok o =>
        rw [hres] at h
        cases o with
        | none => injection h with h1; subst h1; exact hinv
        | some pkg =>
          injection h with h1
          subst h1
          intro p hp
          rcases List.mem_append.mp hp with hp | hp
          · exact hinv p hp
          · have hp2 : p = pkg := by simpa using hp
            subst hp2
            exact (resolvePackage_ok_some hres).2.2

theorem discoverMember_inv {env : FsEnv} {root : String}
    {defaults : List (String × List (String × List String))}
    {st st2 : DiscoverState} {member : String}
    (hwalk : ∀ base path, path ∈ env.walk base → goHasPrefix path (root ++ "/") = true)
    (hinv : DiscInv root st)
    (h : discoverMember env root defaults st member = .ok st2) :
    DiscInv root st2 := by
  simp only [discoverMember] at h
  split at h
  · refine foldlM_except_inv _ st st2 ?_ hinv h
    intro s a s2 ha hP hf
    split at hf
    · injection hf with h1; subst h1; exact hP
    · split at hf
      · injection hf with h1; subst h1; exact hP
      · exact visitDir_inv (hwalk _ a ha) hP hf
  · refine visitDir_inv ?_ hinv h
    exact goHasPrefix_append (root ++ "/") (goTrimPrefix member "//")

theorem discoverMember_tasks {env : FsEnv} {root : String}
    {defaults : List (String × List (String × List String))}
    {st st2 : DiscoverState} {member : String}
    (hinv : TasksInv st)
    (h : discoverMember env root defaults st member = .ok st2) :
    TasksInv st2 := by
  simp only [discoverMember] at h
  split at h
  · refine foldlM_except_inv _ st st2 ?_ hinv h
    intro s a s2 ha hP hf
    split at hf
    · injection hf with h1; subst h1; exact hP
    · split at hf
      · injection hf with h1; subst h1; exact hP
      · exact visitDir_tasks hP hf
  · exact visitDir_tasks hinv h

theorem discoverPackages_state {env : FsEnv} {root : String} {cfg : RootConfig}
    {pkgs : List Package}
    (hwalk : ∀ base path, path ∈ env.walk base → goHasPrefix path (root ++ "/") = true)
    (h : discoverPackages env root cfg = .ok pkgs) :
    ∃ st : DiscoverState, DiscInv root st ∧ pkgs = sortByLabel st.packages := by
  simp only [discoverPackages] at h
  cases hfold : cfg.workspace.members.foldlM
      (discoverMember env root (resolveDefaults cfg.defaults)) ⟨[], []⟩ with
  | error e => rw [hfold] at h; exact Except.noConfusion h
  | ok st =>
    rw [hfold] at h
    injection h with h1
    refine ⟨st, ?_, h1.symm⟩
    refine foldlM_except_inv _ _ st ?_ ?_ hfold
    · intro s a s2 _ hP hf
      exact discoverMember_inv hwalk hP hf
    · exact ⟨fun p hp => absurd hp (List.not_mem_nil p), List.Pairwise.nil⟩

theorem relPath_eq_trimPrefix (root dir : String) :
    relPath root dir = goTrimPrefix dir (root ++ "/") := rfl

theorem relPath_inj {root d1 d2 : String}
    (h1 : goHasPrefix d1 (root ++ "/") = true) (h2 : goHasPrefix d2 (root ++ "/") = true)
    (heq : "//" ++ relPath root d1 = "//" ++ relPath root d2) : d1 = d2 := by
  obtain ⟨t1, ht1⟩ := goHasPrefix_exists h1
  obtain ⟨t2, ht2⟩ := goHasPrefix_exists h2
  rw [ht1, ht2, relPath_eq_trimPrefix, relPath_eq_trimPrefix,
    goTrimPrefix_append, goTrimPrefix_append] at heq
  have ht := congrArg String.data heq
  simp only [String.data_append] at ht
  have hts : t1 = t2 := String.ext (List.append_cancel_left ht)
  rw [ht1, ht2, hts]

theorem discInv_label_pairwise {root : String} {st : DiscoverState}
    (hinv : DiscInv root st) :
    st.packages.Pairwise (fun a b => a.label ≠ b.label) := by
  refine List.Pairwise.imp_of_mem ?_ hinv.2
  intro a b ha hb hne hEq
  obtain ⟨_, hpa, hla, _⟩ := hinv.1 a ha
  obtain ⟨_, hpb, hlb, _⟩ := hinv.1 b hb
  exact hne (relPath_inj hpa hpb (by rw [← hla, ← hlb]; exact hEq))

theorem sortByLabel_sorted (l : List Package) :
    (sortByLabel l).Pairwise (fun a b => a.label ≤ b.label) := by
  unfold sortByLabel
  refine List.Pairwise.imp (fun h => of_decide_eq_true h) (List.sorted_mergeSort ?_ ?_ l)
  · intro a b c hab hbc
    exact decide_eq_true (le_trans (of_decide_eq_true hab) (of_decide_eq_true hbc))
  · intro a b
    rcases le_total a.label b.label with h | h <;> simp [h]

/-- C4: a discovery result is strictly increasing by label (ascending and
duplicate-free, lexicographically over the forward-slash path), and every
label is exactly "//" followed by the package directory's root-relative
path. -/
theorem discoverPackages_sorted_unique_labels :
    ∀ (env : FsEnv) (root : String) (cfg : RootConfig) (pkgs : List Package),
      (∀ base path, path ∈ env.walk base → goHasPrefix path (root ++ "/") = true) →
      discoverPackages env root cfg = .ok pkgs →
      pkgs.Pairwise (fun a b => a.label < b.label) ∧
      pkgs.Pairwise (fun a b => a.label ≠ b.label) ∧
      ∀ p ∈ pkgs, goHasPrefix p.dir (root ++ "/") = true ∧
        p.label = "//" ++ relPath root p.dir := by
  intro env root cfg pkgs hwalk h
  obtain ⟨st, hinv, hsort⟩ := discoverPackages_state hwalk h
  subst hsort
  have hle := sortByLabel_sorted st.packages
  have hne : (sortByLabel st.packages).Pairwise (fun a b => a.label ≠ b.label) := by
    unfold sortByLabel
    exact ((List.Perm.pairwise_iff (fun hx => Ne.symm hx)
      (List.mergeSort_perm st.packages _)).mpr (discInv_label_pairwise hinv))
  refine ⟨(hle.and hne).imp (fun hab => lt_of_le_of_ne hab.1 hab.2), hne, ?_⟩
  intro p hp
  have hp2 : p ∈ st.packages := by
    rw [sortByLabel] at hp
    exact List.mem_mergeSort.mp hp
  obtain ⟨_, h2, h3, _⟩ := hinv.1 p hp2
  exact ⟨h2, h3⟩

/-- C4 witness: the demo workspace discovers two go packages, returned
strictly sorted even though the walk visits them in reverse order. -/
theorem discoverPackages_sorted_unique_labels_witness :
    discoverPackages envDisc "/ws" cfgDisc = .ok pkgsDisc ∧
    pkgsDisc.Pairwise (fun a b => a.label < b.label) ∧
    ∀ p ∈ pkgsDisc, p.label = "//" ++ relPath "/ws" p.dir := by
  have hwalk : ∀ base path, path ∈ envDisc.walk base →
      goHasPrefix path ("/ws" ++ "/") = true := by
    intro base path hp
    simp only [envDisc, walkDemo] at hp
    split at hp
    · simp only [List.mem_cons, List.not_mem_nil, or_false] at hp
      rcases hp with hp | hp | hp <;> (subst hp; decide)
    · exact absurd hp (List.not_mem_nil path)
  have hres : discoverPackages envDisc "/ws" cfgDisc = .ok pkgsDisc := by
    have h1 : discoverPackages envDisc "/ws" cfgDisc =
        .ok (sortByLabel [pkgDiscB, pkgDiscA]) := rfl
    have h2 : sortByLabel [pkgDiscB, pkgDiscA] = [pkgDiscA, pkgDiscB] := by
      simp [sortByLabel, List.mergeSort, List.merge, pkgDiscA, pkgDiscB]
      decide
    rw [h1, h2]
    rfl
  have hmain := discoverPackages_sorted_unique_labels envDisc "/ws" cfgDisc pkgsDisc hwalk hres
  exact ⟨hres, hmain.1, fun p hp => (hmain.2.2 p hp).2⟩

theorem resolvePackage_emptyMerged_withUx {env : FsEnv} {root dir : String}
    {defaults : List (String × List (String × List String))} {raw : UxRaw}
    (hf : env.hasFile (joinPath dir "ux.toml") = true)
    (hraw : env.readUx (joinPath dir "ux.toml") = .ok raw)
    (hempty : (mergeTaskTables
        (if (if raw.type = "" then detectType env dir else raw.type) = "" then []
         else (defaults.lookup
           (if raw.type = "" then detectType env dir else raw.type)).getD [])
        (parseTasks raw.tasks)).tasks = []) :
    resolvePackage env root dir defaults = .ok none := by
  simp only [resolvePackage]
  rw [if_pos hf, hraw]
  by_cases hguard : (if raw.type = "" then detectType env dir else raw.type) = "" ∧
      parseTasks raw.tasks = []
  · simp [hguard]
  · simp [hguard, hempty]

theorem resolvePackage_emptyMerged_marker {env : FsEnv} {root dir : String}
    {defaults : List (String × List (String × List String))}
    (hf : env.hasFile (joinPath dir "ux.toml") = false)
    (hempty : (mergeTaskTables
        (if detectType env dir = "" then []
         else (defaults.lookup (detectType env dir)).getD []) []).tasks = []) :
    resolvePackage env root dir defaults = .ok none := by
  simp only [resolvePackage]
  rw [hf]
  by_cases hguard : detectType env dir = ""
  · simp [hguard]
  · have hempty2 : (mergeTaskTables ((defaults.lookup (detectType env dir)).getD [])
        []).tasks = [] := by
      rw [if_neg hguard] at hempty
      exact hempty
    simp [hguard, hempty2]

theorem resolvePackage_no_error {env : FsEnv} {root dir : String}
    {defaults : List (String × List (String × List String))}
    (hok : env.hasFile (joinPath dir "ux.toml") = true →
      ∃ raw, env.readUx (joinPath dir "ux.toml") = .ok raw) :
    ∀ e, resolvePackage env root dir defaults ≠ .error e := by
  intro e h
  simp only [resolvePackage] at h
  by_cases hf : env.hasFile (joinPath dir "ux.toml") = true
  · obtain ⟨raw, hraw⟩ := hok hf
    rw [if_pos hf, hraw] at h
    repeat' split at h
    all_goals simp_all
  · have hf2 : env.hasFile (joinPath dir "ux.toml") = false := by
      revert hf; cases env.hasFile (joinPath dir "ux.toml") <;> simp
    rw [hf2, if_neg (by simp)] at h
    repeat' split at h
    all_goals simp_all

/-- C6: a directory with no resolved type and no explicitly declared tasks
resolves to no package without an error; so does a directory whose merged
task table comes out empty, whether its type came from its ux.toml or from
a marker file alone; a resolved package always carries a non-empty task
table; resolution never errors when the configuration decodes; and hence
every package in a discovery result has a non-empty task table (empty ones
are dropped silently). -/
theorem typelessDir_and_emptyTasks_dropped :
    (∀ (env : FsEnv) (root dir : String)
        (defaults : List (String × List (String × List String))),
        (env.hasFile (joinPath dir "ux.toml") = false ∨
          (∃ raw, env.readUx (joinPath dir "ux.toml") = .ok raw ∧ raw.type = "" ∧
            parseTasks raw.tasks = [])) →
        detectType env dir = "" →
        resolvePackage env root dir defaults = .ok none) ∧
    (∀ (env : FsEnv) (root dir : String)
        (defaults : List (String × List (String × List String))) (raw : UxRaw),
        env.hasFile (joinPath dir "ux.toml") = true →
        env.readUx (joinPath dir "ux.toml") = .ok raw →
        (mergeTaskTables
            (if (if raw.type = "" then detectType env dir else raw.type) = "" then []
             else (defaults.lookup
               (if raw.type = "" then detectType env dir else raw.type)).getD [])
            (parseTasks raw.tasks)).tasks = [] →
        resolvePackage env root dir defaults = .ok none) ∧
    (∀ (env : FsEnv) (root dir : String)
        (defaults : List (String × List (String × List String))),
        env.hasFile (joinPath dir "ux.toml") = false →
        (mergeTaskTables
            (if detectType env dir = "" then []
             else (defaults.lookup (detectType env dir)).getD []) []).tasks = [] →
        resolvePackage env root dir defaults = .ok none) ∧
    (∀ (env : FsEnv) (root dir : String)
        (defaults : List (String × List (String × List String))) (p : Package),
        resolvePackage env root dir defaults = .ok (some p) → p.tasks ≠ []) ∧
    (∀ (env : FsEnv) (root dir : String)
        (defaults : List (String × List (String × List String))),
        (env.hasFile (joinPath dir "ux.toml") = true →
          ∃ raw, env.readUx (joinPath dir "ux.toml") = .ok raw) →
        ∀ e, resolvePackage env root dir defaults ≠ .error e) ∧
    (∀ (env : FsEnv) (root : String) (cfg : RootConfig) (pkgs : List Package),
        discoverPackages env root cfg = .ok pkgs → ∀ p ∈ pkgs, p.tasks ≠ []) := by
  refine ⟨?_, ?_, ?_, ?_, ?_, ?_⟩
  · intro env root dir defaults hcase hdet
    simp only [resolvePackage]
    rcases hcase with hf | ⟨raw, hraw, htype, htasks⟩
    · rw [hf]
      simp [hdet]
    · by_cases hf : env.hasFile (joinPath dir "ux.toml") = true
      · rw [if_pos hf, hraw]
        simp [htype, htasks, hdet]
      · have hf2 : env.hasFile (joinPath dir "ux.toml") = false := by
          revert hf; cases env.hasFile (joinPath dir "ux.toml") <;> simp
        rw [hf2]
        simp [hdet]
  · intro env root dir defaults raw hf hraw hempty
    exact resolvePackage_emptyMerged_withUx hf hraw hempty
  · intro env root dir defaults hf hempty
    exact resolvePackage_emptyMerged_marker hf hempty
  · intro env root dir defaults p h
    exact (resolvePackage_ok_some h).2.2
  · intro env root dir defaults hok
    exact resolvePackage_no_error hok
  · intro env root cfg pkgs h
    simp only [discoverPackages] at h
    cases hfold : cfg.workspace.members.foldlM
        (discoverMember env root (resolveDefaults cfg.defaults)) ⟨[], []⟩ with
    | error e => rw [hfold] at h; exact Except.noConfusion h
    | ok st =>
      rw [hfold] at h
      injection h with h1
      have htasks : TasksInv st := by
        refine foldlM_except_inv _ _ st ?_ ?_ hfold
        · intro s a s2 _ hP hf
          exact discoverMember_tasks hP hf
        · exact fun p hp => absurd hp (List.not_mem_nil p)
      intro p hp
      rw [← h1, sortByLabel] at hp
      exact htasks p (List.mem_mergeSort.mp hp)

/-- C6 witness: a bare directory (no configuration, no marker) resolves to
no package and no error, and a go-marker directory with no go defaults and
no ux.toml (a typed directory with an empty merged table) also resolves to
no package and no error. -/
theorem typelessDir_and_emptyTasks_dropped_witness :
    envBare.hasFile (joinPath "/ws/d" "ux.toml") = false ∧
    detectType envBare "/ws/d" = "" ∧
    resolvePackage envBare "/ws" "/ws/d" [] = .ok none ∧
    envMarkerOnly.hasFile (joinPath "/ws/d" "ux.toml") = false ∧
    detectType envMarkerOnly "/ws/d" = "go" ∧
    resolvePackage envMarkerOnly "/ws" "/ws/d" [] = .ok none :=
  ⟨rfl, rfl,
   typelessDir_and_emptyTasks_dropped.1 envBare "/ws" "/ws/d" [] (Or.inl rfl) rfl,
   rfl, rfl,
   typelessDir_and_emptyTasks_dropped.2.2.1 envMarkerOnly "/ws" "/ws/d" [] rfl (by decide)⟩
